import Mathlib

/-!
# Document Reader Engine — verification of the reader subsystem

A shallow embedding of the reader view (`internal/ui/views/reader.go`) of the
`webby-t` terminal client, together with theorems settling claims about the
Document Reader Engine: the greedy line wrapper, the position codec, the
search index, the chapter stitcher, and the reading-session state transitions.

Embedding conventions:
* Go strings are modelled as `List Char` (`GoStr`); Go `len` (bytes) becomes
  character count, which agrees on ASCII content.
* Go `float64` values (`textScale`, fractional positions) are modelled as `ℚ`;
  Go's `int(x)` truncation is modelled by `⌊·⌋`, which agrees with truncation
  on the non-negative values arising here.
* Go `int` fields that are non-negative along all modelled paths (`chapter`,
  `lineOffset`) are modelled as `Nat`; computations that mix signs (`scroll`
  deltas, offset clamping) go through `Int` exactly as the source does.
* Side-effecting collaborator calls (HTTP fetches, the on-disk config store)
  carry no session state and are dropped; the position-save call is reified as
  the list of save records the session emits.
-/

namespace Webby

/-- A Go string, modelled as its character sequence. -/
abbrev GoStr := List Char

/-! ## Pure string helpers (Go standard library) -/

/-- Go `strings.Split` / `strings.FieldsFunc` substrate: split a character
list at every character satisfying `p`, keeping empty pieces (so splitting
the empty string yields one empty piece, as `strings.Split` does). -/
def splitCh (p : Char → Bool) : List Char → List (List Char)
  | [] => [[]]
  | c :: cs =>
    let r := splitCh p cs
    if p c then [] :: r
    else
      match r with
      | [] => [[c]]
      | h :: t => (c :: h) :: t

/-- Go `strings.Split(s, "\n")`: the paragraphs of the raw chapter text. -/
def splitLinesGo (s : GoStr) : List GoStr :=
  splitCh (fun c => c = '\n') s

/-- Go `strings.Fields(paragraph)`: split on whitespace and drop the empty
pieces, leaving the whitespace-free words. -/
def fields (s : GoStr) : List GoStr :=
  (splitCh Char.isWhitespace s).filter (fun w => w ≠ [])

/-- Go `strings.ToLower`, character by character. -/
def lowerStr (s : GoStr) : GoStr := s.map Char.toLower

/-! ## Line wrapper (`wrapContent`, duplicated verbatim inside
`buildContinuousContent`) -/

/-- The greedy word-accumulation loop of `wrapContent`: a word is appended to
the current line buffer when it fits in `maxWidth` counting one separating
space, otherwise the buffer is flushed as a completed line and the word starts
a new buffer; a trailing non-empty buffer is flushed after the loop. -/
def wrapWords (maxWidth : Nat) : List GoStr → GoStr → List GoStr
  | [], cur => if cur.length > 0 then [cur] else []
  | w :: ws, cur =>
    if cur.length = 0 then
      wrapWords maxWidth ws w
    else if cur.length + 1 + w.length ≤ maxWidth then
      wrapWords maxWidth ws (cur ++ [' '] ++ w)
    else
      cur :: wrapWords maxWidth ws w

/-- The paragraph loop of `wrapContent`: empty paragraphs and all-whitespace
paragraphs yield one empty display line; any other paragraph is greedily
word-wrapped to `maxWidth`. -/
def wrapText (content : GoStr) (maxWidth : Nat) : List GoStr :=
  (splitLinesGo content).flatMap fun paragraph =>
    if paragraph = [] then [[]]
    else
      let words := fields paragraph
      if words = [] then [[]]
      else wrapWords maxWidth words []

/-- Floor of a rational, computed on its integer parts so that closed terms
evaluate inside the kernel. -/
def ratFloor (q : ℚ) : Int := Int.fdiv q.num (q.den : Int)

/-- `ratFloor` is the mathematical floor. -/
theorem ratFloor_eq_floor (q : ℚ) : ratFloor q = ⌊q⌋ := by
  rw [ratFloor, Rat.floor_def, Int.fdiv_eq_ediv _ (by positivity)]

/-- Floor of `a / q` for a rational `q`, again computed on integer parts.
For the positive widths and scales of the reader this is Go's
`int(float64(a) / s)`. -/
def ratFloorDiv (a : Int) (q : ℚ) : Int := Int.fdiv (a * (q.den : Int)) q.num

/-- For positive `q`, `ratFloorDiv` is the floor of the rational division. -/
theorem ratFloorDiv_eq_floor (a : Int) (q : ℚ) (hq : 0 < q) :
    ratFloorDiv a q = ⌊(a : ℚ) / q⌋ := by
  have hnum : 0 < q.num := Rat.num_pos.mpr hq
  have hnum0 : ((q.num : ℚ)) ≠ 0 := by exact_mod_cast hnum.ne'
  have hc : ((q.num.toNat : ℕ) : ℚ) = (q.num : ℚ) := by
    exact_mod_cast congrArg (fun z : ℤ => (z : ℚ)) (Int.toNat_of_nonneg hnum.le)
  have hqden : (q.num : ℚ) = q * (q.den : ℚ) := by
    have hden0 : ((q.den : ℚ)) ≠ 0 := by positivity
    calc (q.num : ℚ) = ((q.num : ℚ) / (q.den : ℚ)) * (q.den : ℚ) :=
          (div_mul_cancel₀ _ hden0).symm
    _ = q * (q.den : ℚ) := by rw [Rat.num_div_den]
  have hrw : (a : ℚ) / q = ((a * q.den : Int) : ℚ) / ((q.num.toNat : ℕ) : ℚ) := by
    rw [hc]
    push_cast
    rw [div_eq_div_iff (ne_of_gt hq) hnum0, hqden]
    ring
  rw [ratFloorDiv, hrw, Rat.floor_intCast_div_natCast,
    Int.toNat_of_nonneg hnum.le, Int.fdiv_eq_ediv _ hnum.le]

/-- The width computation shared by `wrapContent` and
`buildContinuousContent`: `baseWidth = width - 4`, scaled by `1/textScale`
(Go's `int(float64(baseWidth) / v.textScale)`) and clamped to
`[20, baseWidth]` (lower clamp first, as in the source). -/
def effectiveWidth (width : Int) (textScale : ℚ) : Nat :=
  let baseWidth : Int := width - 4
  let scaledWidth : Int := ratFloorDiv baseWidth textScale
  let scaledWidth := if scaledWidth < 20 then 20 else scaledWidth
  let scaledWidth := if scaledWidth > baseWidth then baseWidth else scaledWidth
  scaledWidth.toNat

/-! ## Search primitives (`executeSearch` internals) -/

/-- `l₁.isPrefixOf l₂` forces `l₁` to be no longer than `l₂`. -/
theorem isPrefixOf_length_le : ∀ (n h : List Char), n.isPrefixOf h = true → n.length ≤ h.length
  | [], _, _ => Nat.zero_le _
  | _ :: _, [], hp => by simp [List.isPrefixOf] at hp
  | a :: n, b :: h, hp => by
    simp only [List.isPrefixOf, Bool.and_eq_true] at hp
    simpa [Nat.succ_le_succ_iff] using isPrefixOf_length_le n h hp.2

/-- Go `strings.Index(hay, needle)`: position of the first occurrence of
`needle` in `hay` (`none` for Go's `-1`). -/
def strIndex (needle : GoStr) (hay : GoStr) : Option Nat :=
  if needle.isPrefixOf hay then some 0
  else
    match hay with
    | [] => none
    | _ :: t =>
      match strIndex needle t with
      | some i => some (i + 1)
      | none => none

/-- A found index leaves room for the needle inside the haystack. -/
theorem strIndex_bound :
    ∀ (hay needle : GoStr) (idx : Nat), strIndex needle hay = some idx →
      idx + needle.length ≤ hay.length := by
  intro hay
  induction hay with
  | nil =>
    intro needle idx h
    rw [strIndex] at h
    split at h
    · rename_i hp
      cases h
      simpa using isPrefixOf_length_le needle [] hp
    · simp at h
  | cons c t ih =>
    intro needle idx h
    rw [strIndex] at h
    split at h
    · rename_i hp
      cases h
      simpa using isPrefixOf_length_le needle (c :: t) hp
    · rcases hrec : strIndex needle t with _ | j <;> rw [hrec] at h
      · simp at h
      · cases h
        have := ih needle j hrec
        simp only [List.length_cons]
        omega

/-- A search match: line number in the wrapped content, start offset within
the line, and exclusive end offset. -/
structure SearchMatch where
  lineIndex : Nat
  startOffset : Nat
  endOffset : Nat
deriving DecidableEq, Repr

/-- The per-line scan loop of `executeSearch`, structured on a fuel counter:
find the first occurrence of `query` in `hay` (the still-unscanned tail of
the lowered line, starting at absolute character offset `offset`), record a
match, and resume one character past the match start. Each iteration drops
at least one character of `hay`, so `hay.length` fuel (supplied by
`scanLine`) never runs out before the loop's own `none` exit for the
non-empty queries `executeSearch` passes. -/
def scanLineAux (query : GoStr) (lineIdx : Nat) : Nat → GoStr → Nat → List SearchMatch
  | 0, _, _ => []
  | fuel + 1, hay, offset =>
    match strIndex query hay with
    | none => []
    | some idx =>
      { lineIndex := lineIdx, startOffset := offset + idx,
        endOffset := offset + idx + query.length } ::
        scanLineAux query lineIdx fuel (hay.drop (idx + 1)) (offset + idx + 1)

/-- The Go scan loop over one lowered line. -/
def scanLine (query : GoStr) (lineIdx : Nat) (hay : GoStr) (offset : Nat) : List SearchMatch :=
  scanLineAux query lineIdx hay.length hay offset

/-- A non-empty needle never occurs in an empty haystack. -/
theorem strIndex_nil (query : GoStr) (hq : query ≠ []) : strIndex query [] = none := by
  rw [strIndex]
  cases query with
  | nil => exact absurd rfl hq
  | cons a t => simp [List.isPrefixOf]

/-- Sanity: for the non-empty queries `executeSearch` passes, `hay.length`
fuel is never the reason the scan stops — any extra fuel yields the same
match list, so `scanLine` is the Go loop, not a truncation of it. -/
theorem scanLineAux_fuel (query : GoStr) (lineIdx : Nat) (hq : query ≠ []) :
    ∀ (n : Nat) (hay : GoStr) (offset k : Nat), hay.length ≤ n →
      scanLineAux query lineIdx n hay offset = scanLineAux query lineIdx (n + k) hay offset := by
  intro n
  induction n with
  | zero =>
    intro hay offset k hn
    have : hay = [] := List.length_eq_zero.mp (by omega)
    subst this
    cases k with
    | zero => rfl
    | succ k' =>
      rw [scanLineAux]
      simp [scanLineAux, strIndex_nil query hq]
  | succ n ih =>
    intro hay offset k hn
    have hk : n + 1 + k = (n + k) + 1 := by omega
    rw [hk, scanLineAux, scanLineAux]
    cases h : strIndex query hay with
    | none => rfl
    | some idx =>
      have hlen : (hay.drop (idx + 1)).length ≤ n := by
        have : hay ≠ [] := by
          rintro rfl
          rw [strIndex_nil query hq] at h
          cases h
        have : 0 < hay.length := List.length_pos.mpr this
        simp only [List.length_drop]
        omega
      have := ih (hay.drop (idx + 1)) (offset + idx + 1) k hlen
      simp [this]

/-! ## Reader session state and messages -/

/-- Where a chapter starts inside the stitched continuous content. -/
structure ChapterBoundary where
  chapterIndex : Nat
  lineStart : Nat
deriving DecidableEq, Repr

/-- One chapter's raw text, tagged with its index (`chapterContent`). -/
structure ChapterContent where
  index : Nat
  content : GoStr
deriving DecidableEq

/-- `chapterLoadedMsg`: completion of an asynchronous single-chapter fetch. -/
structure ChapterLoadedMsg where
  content : GoStr
  chapter : Nat
  err : Bool
deriving DecidableEq

/-- `allChaptersLoadedMsg`: completion of the continuous-mode eager fetch. -/
structure AllChaptersLoadedMsg where
  chapters : List ChapterContent
  err : Bool
deriving DecidableEq

/-- The session state of `ReaderView` that the reader engine mutates.
`chapters` holds the chapter titles of the cached table of contents; `hasErr`
models `err != nil`; collaborator handles (`client`, `config`) carry no
session state and are omitted. -/
structure ReaderState where
  bookId : Option GoStr
  chapters : List GoStr
  chapter : Nat
  content : GoStr
  lines : List GoStr
  lineOffset : Nat
  loading : Bool
  hasErr : Bool
  textScale : ℚ
  pendingPosition : ℚ
  hasPendingPos : Bool
  searchQuery : GoStr
  searchMatches : List SearchMatch
  currentMatch : Int
  searchActive : Bool
  continuousMode : Bool
  allChapterContent : List GoStr
  chapterBoundaries : List ChapterBoundary
  width : Int
  height : Int
deriving DecidableEq

/-- `config.DefaultTextScale` (1.0). -/
def defaultTextScale : ℚ := 1
/-- `config.MinTextScale` (0.5), written in normalized form so closed terms
kernel-evaluate. -/
def minTextScale : ℚ := ⟨1, 2, by decide, by decide⟩
/-- `config.MaxTextScale` (2.0). -/
def maxTextScale : ℚ := 2
/-- `config.TextScaleStep` (0.1), in normalized form. -/
def textScaleStep : ℚ := ⟨1, 10, by decide, by decide⟩

/-- Sanity: the normalized form of `MinTextScale` is one half. -/
theorem minTextScale_eq : minTextScale = 1/2 := by
  rw [minTextScale, Rat.mk'_eq_divInt, Rat.divInt_eq_div]
  norm_num

/-- Sanity: the normalized form of `TextScaleStep` is one tenth. -/
theorem textScaleStep_eq : textScaleStep = 1/10 := by
  rw [textScaleStep, Rat.mk'_eq_divInt, Rat.divInt_eq_div]
  norm_num

/-- `NewReaderView` with the default config text scale. -/
def newReaderView : ReaderState :=
  { bookId := none, chapters := [], chapter := 0, content := [], lines := [],
    lineOffset := 0, loading := false, hasErr := false,
    textScale := defaultTextScale, pendingPosition := 0, hasPendingPos := false,
    searchQuery := [], searchMatches := [], currentMatch := -1,
    searchActive := false, continuousMode := false, allChapterContent := [],
    chapterBoundaries := [], width := 80, height := 24 }

/-- `visibleLines`: content rows of the viewport (`height - 5`, at least 1). -/
def visibleLines (v : ReaderState) : Nat :=
  let l : Int := v.height - 5
  if l < 1 then 1 else l.toNat

/-- `wrapContent` as a state transition: replace `lines` with the wrap of the
current chapter text at the effective width. -/
def wrapContent (v : ReaderState) : ReaderState :=
  { v with lines := wrapText v.content (effectiveWidth v.width v.textScale) }

/-- `scroll(delta)`: move the offset and clamp it into
`[0, max 0 (lineCount - visibleLines)]`. -/
def scroll (v : ReaderState) (delta : Int) : ReaderState :=
  let o : Int := (v.lineOffset : Int) + delta
  let o := if o < 0 then 0 else o
  let maxOffset : Int := (v.lines.length : Int) - (visibleLines v : Int)
  let maxOffset := if maxOffset < 0 then 0 else maxOffset
  let o := if o > maxOffset then maxOffset else o
  { v with lineOffset := o.toNat }

/-- `calculateProgress` as the pure function of its three inputs
(`v.lineOffset`, `v.visibleLines()`, `len(v.lines)`): 0 on an empty line
list, 100 once the last line is visible, otherwise the floored integer
percentage `offset*100/total`. -/
def calculateProgress (offset visible total : Nat) : Nat :=
  if total = 0 then 0
  else if offset + visible ≥ total then 100
  else offset * 100 / total

/-- `restorePendingPosition`: after a chapter load, consume a pending
fractional position (if any) into a clamped line offset. -/
def restorePendingPosition (v : ReaderState) : ReaderState :=
  if v.hasPendingPos = false ∨ v.lines.length = 0 then v
  else
    let offset : Int := ratFloor (v.pendingPosition * (v.lines.length : ℚ))
    let maxOffset : Int := (v.lines.length : Int) - (visibleLines v : Int)
    let maxOffset := if maxOffset < 0 then 0 else maxOffset
    let offset := if offset > maxOffset then maxOffset else offset
    let offset := if offset < 0 then 0 else offset
    { v with lineOffset := offset.toNat, hasPendingPos := false }

/-- `handleChapterLoaded`: unconditionally install the delivered chapter
(content and index), rewrap, clear the error, and consume any pending
position. -/
def handleChapterLoaded (v : ReaderState) (msg : ChapterLoadedMsg) : ReaderState :=
  let v := { v with loading := false }
  if msg.err then { v with hasErr := true }
  else
    let v := { v with content := msg.content, chapter := msg.chapter }
    let v := wrapContent v
    let v := { v with hasErr := false }
    restorePendingPosition v

/-- `clearSearch`. -/
def clearSearch (v : ReaderState) : ReaderState :=
  { v with searchActive := false, searchQuery := [], searchMatches := [],
           currentMatch := -1 }

/-- `setTextScale`: clamp the scale to `[MinTextScale, MaxTextScale]` and, if
it changed, rewrap the current content (the config write carries no session
state). -/
def setTextScale (v : ReaderState) (scale : ℚ) : ReaderState :=
  let scale := if scale < minTextScale then minTextScale else scale
  let scale := if scale > maxTextScale then maxTextScale else scale
  if scale = v.textScale then v
  else
    let v := { v with textScale := scale }
    if v.content ≠ [] then wrapContent v else v

/-- `adjustTextScale`. -/
def adjustTextScale (v : ReaderState) (delta : ℚ) : ReaderState :=
  setTextScale v (v.textScale + delta)

/-- `scrollToMatch`: bring the given match's line into the viewport (match
line on top when it was above, last row when it was below). In the second
branch `m.lineIndex ≥ lineOffset + vis ≥ vis`, so the `Nat` subtraction
agrees with Go's `int` arithmetic. -/
def scrollToMatch (v : ReaderState) (matchIdx : Int) : ReaderState :=
  if matchIdx < 0 ∨ (v.searchMatches.length : Int) ≤ matchIdx then v
  else
    let m := v.searchMatches.getD matchIdx.toNat ⟨0, 0, 0⟩
    let vis := visibleLines v
    let v := if m.lineIndex < v.lineOffset then { v with lineOffset := m.lineIndex } else v
    if m.lineIndex ≥ v.lineOffset + vis then { v with lineOffset := m.lineIndex - vis + 1 }
    else v

/-- `executeSearch`: reset the search state, then scan every wrapped line of
the lowered content for the lowered query, collecting matches in line order;
on success activate the search and scroll to the first match. -/
def executeSearch (v : ReaderState) : ReaderState :=
  let v := { v with searchMatches := [], currentMatch := -1, searchActive := false }
  if v.searchQuery = [] ∨ v.lines = [] then v
  else
    let query := lowerStr v.searchQuery
    let ms := v.lines.enum.flatMap fun p => scanLine query p.1 (lowerStr p.2) 0
    let v := { v with searchMatches := ms }
    if ms.length > 0 then
      let v := { v with searchActive := true, currentMatch := 0 }
      scrollToMatch v 0
    else v

/-- `getCurrentChapterFromLine`: outside continuous mode (or with no
boundaries) the stored chapter; otherwise the chapter of the boundary with
the greatest `lineStart ≤ lineIdx`, found by the source's descending scan. -/
def getCurrentChapterFromLine (v : ReaderState) (lineIdx : Nat) : Nat :=
  if v.continuousMode = false ∨ v.chapterBoundaries = [] then v.chapter
  else
    match v.chapterBoundaries.reverse.find? (fun b => lineIdx ≥ b.lineStart) with
    | some b => b.chapterIndex
    | none => 0

/-- `loadChapter`'s synchronous state effect (`v.loading = true`); the fetch
itself is external and answers with a `ChapterLoadedMsg`. -/
def loadChapterState (v : ReaderState) : ReaderState :=
  { v with loading := true }

/-- `goToChapter(chapter)`: reset the offset, fire the position save, and
request the chapter load (the requested index travels with the fetch, not
the state). -/
def goToChapter (v : ReaderState) (chapter : Nat) : ReaderState :=
  loadChapterState { v with lineOffset := 0 }

/-- `toggleContinuousMode`: flip the mode and clear the search; entering
continuous mode starts the eager all-chapter fetch; leaving it recomputes the
current chapter — on the already-flipped state — drops the stitched data, and
reloads that chapter. -/
def toggleContinuousMode (v : ReaderState) : ReaderState :=
  let v := { v with continuousMode := !v.continuousMode }
  let v := clearSearch v
  if v.continuousMode then
    { v with loading := true }
  else
    let currentChapter := getCurrentChapterFromLine v v.lineOffset
    let v := { v with chapter := currentChapter,
                      allChapterContent := [], chapterBoundaries := [] }
    loadChapterState v

/-- One chapter's contribution to the stitched content: a blank line, the
decorated header (title, or a generated "Chapter N" fallback), a blank line,
then the chapter's wrapped lines. -/
def chapterBlock (titles : List GoStr) (maxWidth : Nat) (ch : ChapterContent) : List GoStr :=
  let chapterTitle := if ch.index < titles.length then titles.getD ch.index [] else []
  let chapterTitle :=
    if chapterTitle = [] then "Chapter ".data ++ (Nat.repr (ch.index + 1)).data
    else chapterTitle
  let header := "━━━ ".data ++ chapterTitle ++ " ━━━".data
  [[], header, []] ++ wrapText ch.content maxWidth

/-- The chapter loop of `buildContinuousContent`: record a boundary at the
current cumulative line count, then append the chapter's block. -/
def stitchLoop (titles : List GoStr) (maxWidth : Nat) :
    List ChapterContent → List GoStr → List ChapterBoundary →
      List GoStr × List ChapterBoundary
  | [], acc, bnds => (acc, bnds)
  | ch :: rest, acc, bnds =>
    stitchLoop titles maxWidth rest (acc ++ chapterBlock titles maxWidth ch)
      (bnds ++ [{ chapterIndex := ch.index, lineStart := acc.length }])

/-- `buildContinuousContent`: stitch all chapters into one line sequence with
its boundary table, use it as the current lines, and seek to the current
chapter's boundary start (0 when out of range). -/
def buildContinuousContent (v : ReaderState) (chapters : List ChapterContent) : ReaderState :=
  let maxWidth := effectiveWidth v.width v.textScale
  let p := stitchLoop v.chapters maxWidth chapters [] []
  let v := { v with allChapterContent := p.1, chapterBoundaries := p.2, lines := p.1 }
  if v.chapter < v.chapterBoundaries.length then
    { v with lineOffset := (v.chapterBoundaries.getD v.chapter ⟨0, 0⟩).lineStart }
  else
    { v with lineOffset := 0 }

/-- `handleAllChaptersLoaded`. -/
def handleAllChaptersLoaded (v : ReaderState) (msg : AllChaptersLoadedMsg) : ReaderState :=
  let v := { v with loading := false }
  if msg.err then { v with hasErr := true }
  else
    let v := buildContinuousContent v msg.chapters
    { v with hasErr := false }

/-- One emitted `SavePosition` request. -/
structure SaveCall where
  bookId : GoStr
  chapter : GoStr
  position : ℚ
deriving DecidableEq

/-- `savePosition` (also reached through `SavePositionOnExit`): the save
requests emitted — none without a book, otherwise exactly one carrying the
stored chapter index and the raw fraction `lineOffset / max 1 lineCount`. -/
def savePositionCalls (v : ReaderState) : List SaveCall :=
  match v.bookId with
  | none => []
  | some id =>
    [{ bookId := id, chapter := (Nat.repr v.chapter).data,
       position := (v.lineOffset : ℚ) / ((max 1 v.lines.length : Nat) : ℚ) }]

/-- `SavePositionOnExit` delegates to `savePosition`. -/
def savePositionOnExitCalls (v : ReaderState) : List SaveCall :=
  savePositionCalls v

/-- The spec's viewport invariant: `0 ≤ offset ≤ max 0 (lineCount − visibleLines)`. -/
def offsetInvariant (v : ReaderState) : Prop :=
  0 ≤ (v.lineOffset : Int) ∧
    (v.lineOffset : Int) ≤ max 0 ((v.lines.length : Int) - (visibleLines v : Int))

instance (v : ReaderState) : Decidable (offsetInvariant v) := by
  unfold offsetInvariant; infer_instance

/-! ## The line wrapper's length bound (C1) -/

/-- Every line emitted by the greedy loop either fits in `W` or is a single
source word that itself exceeds `W`, provided the incoming buffer satisfies
the same disjunction and all pending words come from `allWords`. -/
theorem wrapWords_mem (W : Nat) (allWords : List GoStr) :
    ∀ (ws : List GoStr) (cur : GoStr),
      (cur.length ≤ W ∨ (cur ∈ allWords ∧ W < cur.length)) →
      (∀ w ∈ ws, w ∈ allWords) →
      ∀ l ∈ wrapWords W ws cur, l.length ≤ W ∨ (l ∈ allWords ∧ W < l.length) := by
  intro ws
  induction ws with
  | nil =>
    intro cur hcur _ l hl
    simp only [wrapWords] at hl
    split at hl
    · rcases List.mem_singleton.mp hl with rfl
      exact hcur
    · simp at hl
  | cons w ws ih =>
    intro cur hcur hws l hl
    have hw : w ∈ allWords := hws w (List.mem_cons_self _ _)
    have hws' : ∀ x ∈ ws, x ∈ allWords := fun x hx => hws x (List.mem_cons_of_mem _ hx)
    have hwdisj : w.length ≤ W ∨ (w ∈ allWords ∧ W < w.length) := by
      by_cases hwl : w.length ≤ W
      · exact Or.inl hwl
      · exact Or.inr ⟨hw, by omega⟩
    simp only [wrapWords] at hl
    split at hl
    · exact ih w hwdisj hws' l hl
    · split at hl
      · rename_i h0 hfit
        refine ih _ (Or.inl ?_) hws' l hl
        simp only [List.length_append, List.length_cons, List.length_nil]
        omega
      · rcases List.mem_cons.mp hl with rfl | hl'
        · exact hcur
        · exact ih w hwdisj hws' l hl'

/-- C1: for every text and effective wrap width `W ≥ 20`, every line produced
by `wrapContent` has length at most `W`, except that a line may be exactly
one source word (an element of `fields` of its paragraph, hence never split
and never joined with another word) whose own length exceeds `W`. -/
theorem wrapContent_line_bound (content : GoStr) (W : Nat) (l : GoStr)
    (hW : 20 ≤ W) (hl : l ∈ wrapText content W) :
    l.length ≤ W ∨ (W < l.length ∧ ∃ p ∈ splitLinesGo content, l ∈ fields p) := by
  rcases List.mem_flatMap.mp hl with ⟨p, hp, hlp⟩
  dsimp only at hlp
  split at hlp
  · left
    rcases List.mem_singleton.mp hlp with rfl
    simp
  · split at hlp
    · left
      rcases List.mem_singleton.mp hlp with rfl
      simp
    · have := wrapWords_mem W (fields p) (fields p) [] (Or.inl (by simp))
        (fun _ hx => hx) l hlp
      rcases this with h | ⟨hmem, hlen⟩
      · exact Or.inl h
      · exact Or.inr ⟨hlen, p, hp, hmem⟩

/-- Witness for C1 at a text containing a 34-character word and `W = 20`:
the overlong word is emitted as a line of its own. -/
theorem wrapContent_line_bound_witness :
    "supercalifragilisticexpialidocious".data.length ≤ 20 ∨
      (20 < "supercalifragilisticexpialidocious".data.length ∧
        ∃ p ∈ splitLinesGo "tiny supercalifragilisticexpialidocious word".data,
          "supercalifragilisticexpialidocious".data ∈ fields p) :=
  wrapContent_line_bound "tiny supercalifragilisticexpialidocious word".data 20
    "supercalifragilisticexpialidocious".data (by decide) (by decide)

/-! ## Whitespace normalization by the wrapper (C10) -/

/-- Join words with single separating spaces — the shape of every non-empty
output line of the wrapper. -/
def joinWords : List GoStr → GoStr
  | [] => []
  | [w] => w
  | w :: ws => w ++ [' '] ++ joinWords ws

theorem joinWords_append_single :
    ∀ (ws : List GoStr) (w : GoStr), ws ≠ [] →
      joinWords (ws ++ [w]) = joinWords ws ++ [' '] ++ w := by
  intro ws
  induction ws with
  | nil => intro w h; exact absurd rfl h
  | cons x t ih =>
    intro w _
    cases t with
    | nil => simp [joinWords]
    | cons y t' =>
      have := ih w (by simp)
      simp only [List.cons_append, joinWords]
      rw [List.cons_append] at this
      simp [joinWords] at this ⊢
      simp [this, List.append_assoc]

theorem joinWords_length_pos :
    ∀ (ws : List GoStr), ws ≠ [] → (∀ w ∈ ws, w ≠ []) → 0 < (joinWords ws).length := by
  intro ws
  match ws with
  | [] => intro h; exact absurd rfl h
  | [w] =>
    intro _ hne
    simpa [joinWords, List.length_pos] using hne w (by simp)
  | w :: x :: t =>
    intro _ hne
    have : w ≠ [] := hne w (by simp)
    have : 0 < w.length := List.length_pos.mpr this
    simp only [joinWords, List.length_append, List.length_cons, List.length_nil]
    omega

/-- Every line emitted by the greedy loop is the single-space join of a
non-empty selection (in order) of the paragraph's words, provided the buffer
is such a join and buffer-plus-pending words form a sublist of `allWords`. -/
theorem wrapWords_join (W : Nat) (allWords : List GoStr)
    (hNE : ∀ w ∈ allWords, w ≠ []) :
    ∀ (ws curWords : List GoStr),
      (curWords ++ ws).Sublist allWords →
      ∀ l ∈ wrapWords W ws (joinWords curWords),
        ∃ ls, ls ≠ [] ∧ ls.Sublist allWords ∧ l = joinWords ls := by
  intro ws
  induction ws with
  | nil =>
    intro curWords hsub l hl
    simp only [wrapWords] at hl
    split at hl
    · rename_i hpos
      rcases List.mem_singleton.mp hl with rfl
      have hcw : curWords ≠ [] := by
        rintro rfl
        simp [joinWords] at hpos
      exact ⟨curWords, hcw, by simpa using hsub, rfl⟩
    · simp at hl
  | cons w ws ih =>
    intro curWords hsub l hl
    have hcw_mem : ∀ x ∈ curWords, x ∈ allWords := fun x hx =>
      hsub.subset (by simp [hx])
    have hsub_tail : (w :: ws).Sublist allWords :=
      (List.sublist_append_right curWords (w :: ws)).trans hsub
    simp only [wrapWords] at hl
    split at hl
    · rename_i h0
      have hcw : curWords = [] := by
        cases curWords with
        | nil => rfl
        | cons a t =>
          exfalso
          have := joinWords_length_pos (a :: t) (by simp)
            (fun x hx => hNE x (hcw_mem x hx))
          omega
      subst hcw
      have hrw : wrapWords W ws w = wrapWords W ws (joinWords [w]) := by
        simp [joinWords]
      rw [hrw] at hl
      exact ih [w] (by simpa using hsub) l hl
    · split at hl
      · rename_i h0 hfit
        have hcw : curWords ≠ [] := by
          rintro rfl
          simp [joinWords] at h0
        rw [← joinWords_append_single curWords w hcw] at hl
        refine ih (curWords ++ [w]) ?_ l hl
        simpa [List.append_assoc] using hsub
      · rename_i h0 hfit
        rcases List.mem_cons.mp hl with rfl | hl'
        · have hcw : curWords ≠ [] := by
            rintro rfl
            simp [joinWords] at h0
          exact ⟨curWords, hcw,
            (List.sublist_append_left curWords (w :: ws)).trans hsub, rfl⟩
        · have hrw : wrapWords W ws w = wrapWords W ws (joinWords [w]) := by
            simp [joinWords]
          rw [hrw] at hl'
          exact ih [w] (by simpa using hsub_tail) l hl'

/-- C10: the wrapper normalizes whitespace — every output line is either
empty or the single-space join of a non-empty in-order selection of the
whitespace-separated words of one source paragraph, so repeated spaces, tabs
and leading/trailing paragraph whitespace never survive into a line. -/
theorem wrapContent_whitespace_normalization (content : GoStr) (W : Nat) (l : GoStr)
    (hl : l ∈ wrapText content W) :
    l = [] ∨ ∃ p ∈ splitLinesGo content,
      ∃ ls, ls ≠ [] ∧ ls.Sublist (fields p) ∧ l = joinWords ls := by
  rcases List.mem_flatMap.mp hl with ⟨p, hp, hlp⟩
  dsimp only at hlp
  split at hlp
  · exact Or.inl (List.mem_singleton.mp hlp)
  · split at hlp
    · exact Or.inl (List.mem_singleton.mp hlp)
    · have hNE : ∀ w ∈ fields p, w ≠ [] := by
        intro w hw
        have := List.mem_filter.mp hw
        simpa using this.2
      have hjoin : wrapWords W (fields p) [] = wrapWords W (fields p) (joinWords []) := rfl
      rw [hjoin] at hlp
      rcases wrapWords_join W (fields p) hNE (fields p) []
          (by simpa using List.Sublist.refl (fields p)) l hlp with ⟨ls, hne, hsub, hl⟩
      exact Or.inr ⟨p, hp, ls, hne, hsub, hl⟩

/-- Witness for C10: a paragraph with leading, trailing, repeated and tab
whitespace wraps to the single line `"hello world tab"`. -/
theorem wrapContent_whitespace_normalization_witness :
    "hello world tab".data = [] ∨
      ∃ p ∈ splitLinesGo "  hello \t  world   tab ".data,
        ∃ ls, ls ≠ [] ∧ ls.Sublist (fields p) ∧ "hello world tab".data = joinWords ls :=
  wrapContent_whitespace_normalization "  hello \t  world   tab ".data 20
    "hello world tab".data (by decide)

/-! ## Position codec (C6) -/

/-- C6 counterexample: at total line count `N = 0` the guard
`offset + V ≥ N` holds, yet `calculateProgress` returns 0, not the claimed
full value 100. -/
theorem calculateProgress_counterexample :
    0 + 1 ≥ 0 ∧ calculateProgress 0 1 0 ≠ 100 := by decide

/-- C6 amended: provided the total line count is at least 1,
`calculateProgress` returns 100 once `offset + visible ≥ total` and
otherwise the floored integer percentage `offset * 100 / total`. -/
theorem calculateProgress_amended (offset visible total : Nat) (h : 1 ≤ total) :
    calculateProgress offset visible total =
      if offset + visible ≥ total then 100 else offset * 100 / total := by
  rw [calculateProgress, if_neg (by omega)]

/-- Witness for the amended C6, below and at the full-visibility threshold. -/
theorem calculateProgress_amended_witness :
    calculateProgress 3 8 10 = if 3 + 8 ≥ 10 then 100 else 3 * 100 / 10 :=
  calculateProgress_amended 3 8 10 (by decide)

/-! ## Field-preservation helpers for the session transitions -/

/-- `restorePendingPosition` only moves the offset and consumes the pending
flag. -/
theorem restorePendingPosition_untouched (v : ReaderState) :
    (restorePendingPosition v).searchMatches = v.searchMatches ∧
    (restorePendingPosition v).searchQuery = v.searchQuery ∧
    (restorePendingPosition v).currentMatch = v.currentMatch ∧
    (restorePendingPosition v).searchActive = v.searchActive ∧
    (restorePendingPosition v).chapter = v.chapter ∧
    (restorePendingPosition v).content = v.content ∧
    (restorePendingPosition v).lines = v.lines ∧
    (restorePendingPosition v).continuousMode = v.continuousMode := by
  rw [restorePendingPosition]
  split <;> simp

/-- When nothing is pending, `restorePendingPosition` is the identity. -/
theorem restorePendingPosition_no_pending (v : ReaderState)
    (h : v.hasPendingPos = false) : restorePendingPosition v = v := by
  rw [restorePendingPosition, if_pos (Or.inl h)]

/-- A successful `handleChapterLoaded` installs the message's chapter and
content unconditionally (there is no stale-completion check). -/
theorem handleChapterLoaded_installs (v : ReaderState) (msg : ChapterLoadedMsg)
    (herr : msg.err = false) :
    (handleChapterLoaded v msg).chapter = msg.chapter ∧
    (handleChapterLoaded v msg).content = msg.content := by
  rw [handleChapterLoaded]
  simp only [herr, Bool.false_eq_true, if_false]
  constructor
  · rw [(restorePendingPosition_untouched _).2.2.2.2.1]
    simp [wrapContent]
  · rw [(restorePendingPosition_untouched _).2.2.2.2.2.1]
    simp [wrapContent]

/-- A successful `handleChapterLoaded` on a session with no pending position
keeps the line offset and the reading mode. -/
theorem handleChapterLoaded_offset (v : ReaderState) (msg : ChapterLoadedMsg)
    (herr : msg.err = false) (hpend : v.hasPendingPos = false) :
    (handleChapterLoaded v msg).lineOffset = v.lineOffset ∧
    (handleChapterLoaded v msg).continuousMode = v.continuousMode := by
  rw [handleChapterLoaded]
  simp only [herr, Bool.false_eq_true, if_false]
  rw [restorePendingPosition_no_pending _ (by simp [wrapContent, hpend])]
  simp [wrapContent]

/-- `toggleContinuousMode` always keeps the chapter (leaving continuous mode,
the lookup runs on the already-flipped state, so it returns the stored
chapter), keeps the offset and the pending flag, and flips the mode. -/
theorem toggleContinuousMode_fields (v : ReaderState) :
    (toggleContinuousMode v).chapter = v.chapter ∧
    (toggleContinuousMode v).lineOffset = v.lineOffset ∧
    (toggleContinuousMode v).continuousMode = !v.continuousMode ∧
    (toggleContinuousMode v).hasPendingPos = v.hasPendingPos := by
  rw [toggleContinuousMode]
  split
  · simp [clearSearch]
  · rename_i h
    rw [getCurrentChapterFromLine, if_pos]
    · simp [clearSearch, loadChapterState]
    · left
      simpa [clearSearch] using h

/-- A successful `handleAllChaptersLoaded` keeps chapter, mode and pending
flag (the rebuild only replaces lines, boundaries and offset). -/
theorem handleAllChaptersLoaded_fields (v : ReaderState) (chs : List ChapterContent) :
    (handleAllChaptersLoaded v ⟨chs, false⟩).chapter = v.chapter ∧
    (handleAllChaptersLoaded v ⟨chs, false⟩).continuousMode = v.continuousMode ∧
    (handleAllChaptersLoaded v ⟨chs, false⟩).hasPendingPos = v.hasPendingPos := by
  rw [handleAllChaptersLoaded]
  simp only [Bool.false_eq_true, if_false]
  rw [buildContinuousContent]
  split <;> simp

/-! ## Search-state invalidation (C2) -/

/-- A session holding an active search over the wrapped content `"hello"`. -/
def searchStaleDemo : ReaderState :=
  { newReaderView with
      bookId := some "b".data,
      content := "hello".data,
      lines := ["hello".data],
      searchQuery := "lo".data,
      searchMatches := [⟨0, 3, 5⟩],
      currentMatch := 0,
      searchActive := true }

/-- C2 counterexample: a rescale (`setTextScale` from 1 to 2, a content
rebuild) leaves the match list, query, current index and active flag fully
intact instead of clearing them. -/
theorem search_invalidation_counterexample :
    (setTextScale searchStaleDemo 2).textScale = 2 ∧
    (setTextScale searchStaleDemo 2).searchMatches = [⟨0, 3, 5⟩] ∧
    (setTextScale searchStaleDemo 2).searchQuery = "lo".data ∧
    (setTextScale searchStaleDemo 2).currentMatch = 0 ∧
    (setTextScale searchStaleDemo 2).searchActive = true := by
  rw [setTextScale]
  norm_num [minTextScale_eq, maxTextScale, searchStaleDemo, newReaderView,
    defaultTextScale, wrapContent]
  simp

/-- C2 amended: only the Paged↔Continuous mode switch clears the search
state (empty matches, empty query, current index −1, inactive); a text-scale
change and a chapter-load completion leave every search field untouched, so
stale matches survive those content rebuilds. -/
theorem search_invalidation_amended :
    (∀ v : ReaderState,
        (toggleContinuousMode v).searchMatches = [] ∧
        (toggleContinuousMode v).searchQuery = [] ∧
        (toggleContinuousMode v).currentMatch = -1 ∧
        (toggleContinuousMode v).searchActive = false) ∧
    (∀ (v : ReaderState) (s : ℚ),
        (setTextScale v s).searchMatches = v.searchMatches ∧
        (setTextScale v s).searchQuery = v.searchQuery ∧
        (setTextScale v s).currentMatch = v.currentMatch ∧
        (setTextScale v s).searchActive = v.searchActive) ∧
    (∀ (v : ReaderState) (msg : ChapterLoadedMsg),
        (handleChapterLoaded v msg).searchMatches = v.searchMatches ∧
        (handleChapterLoaded v msg).searchQuery = v.searchQuery ∧
        (handleChapterLoaded v msg).currentMatch = v.currentMatch ∧
        (handleChapterLoaded v msg).searchActive = v.searchActive) := by
  refine ⟨fun v => ?_, fun v s => ?_, fun v msg => ?_⟩
  · rw [toggleContinuousMode]
    split <;> simp [clearSearch, loadChapterState]
  · rw [setTextScale]
    by_cases hc : v.content = [] <;> split_ifs <;> simp [hc, wrapContent]
  · rw [handleChapterLoaded]
    split
    · simp
    · refine ⟨?_, ?_, ?_, ?_⟩
      · rw [(restorePendingPosition_untouched _).1]
        simp [wrapContent]
      · rw [(restorePendingPosition_untouched _).2.1]
        simp [wrapContent]
      · rw [(restorePendingPosition_untouched _).2.2.1]
        simp [wrapContent]
      · rw [(restorePendingPosition_untouched _).2.2.2.1]
        simp [wrapContent]

/-! ## Viewport offset clamping (C3) -/

/-- `scroll` establishes the viewport invariant for every delta. -/
theorem scroll_clamps (v : ReaderState) (d : Int) : offsetInvariant (scroll v d) := by
  rw [scroll, offsetInvariant]
  simp only [visibleLines]
  split_ifs <;> constructor <;> simp <;> omega

/-- `restorePendingPosition` establishes the viewport invariant whenever it
actually consumes a pending position. -/
theorem restore_clamps (v : ReaderState) (hp : v.hasPendingPos = true)
    (hl : v.lines ≠ []) : offsetInvariant (restorePendingPosition v) := by
  rw [restorePendingPosition, offsetInvariant]
  rw [if_neg (by simp [hp, List.length_eq_zero, hl])]
  simp only [visibleLines]
  split_ifs <;> constructor <;> simp <;> omega

/-- Eight 9-character words: 4 wrapped lines at width 23 (scale 2 on an
80-column terminal of width 50), 2 lines at width 46 (scale 1). The viewport
shows a single content row (`height = 6`), so the clamp bound at scale 2 is
offset 3. -/
def rescaleDemo : ReaderState :=
  { newReaderView with
      content :=
        "abcdefghi abcdefghi abcdefghi abcdefghi abcdefghi abcdefghi abcdefghi abcdefghi".data,
      lines := wrapText
        "abcdefghi abcdefghi abcdefghi abcdefghi abcdefghi abcdefghi abcdefghi abcdefghi".data 23,
      lineOffset := 3,
      textScale := 2,
      width := 50,
      height := 6 }

/-- C3 counterexample: the invariant holds before, but the rescale
(`setTextScale` 2 → 1) rewraps to 2 lines while keeping raw offset 3, so
`offset ≤ max 0 (lineCount − visibleLines)` fails after the mutation. -/
theorem offset_clamp_counterexample :
    offsetInvariant rescaleDemo ∧ ¬ offsetInvariant (setTextScale rescaleDemo 1) := by
  constructor
  · decide
  · decide

/-- C3 amended: the invariant `0 ≤ offset ≤ max 0 (lineCount − visibleLines)`
is established by `scroll` and by a chapter-load completion that consumes a
pending position; a rescale and a mode switch do not re-clamp the offset. -/
theorem offset_clamp_amended :
    (∀ (v : ReaderState) (d : Int), offsetInvariant (scroll v d)) ∧
    (∀ v : ReaderState, v.hasPendingPos = true → v.lines ≠ [] →
      offsetInvariant (restorePendingPosition v)) :=
  ⟨scroll_clamps, restore_clamps⟩

/-- A session holding a pending half-way position over one line. -/
def pendingDemo : ReaderState :=
  { newReaderView with
      lines := ["x".data],
      hasPendingPos := true,
      pendingPosition := ⟨1, 2, by decide, by decide⟩ }

/-- Witness for the amended C3 at concrete states. -/
theorem offset_clamp_amended_witness :
    offsetInvariant (scroll rescaleDemo 5) ∧
    offsetInvariant (restorePendingPosition pendingDemo) :=
  ⟨offset_clamp_amended.1 rescaleDemo 5,
   offset_clamp_amended.2 pendingDemo rfl (by decide)⟩

/-! ## Stale chapter-load completions (C9) -/

/-- A session whose user has navigated to chapter 2. -/
def staleDemo : ReaderState :=
  { newReaderView with
      bookId := some "b".data,
      chapters := ["One".data, "Two".data, "Three".data],
      chapter := 2,
      content := "two".data,
      lines := ["two".data] }

/-- The session right after requesting chapter 2 via `goToChapter`; a
completion for chapter 0 would be stale. -/
def staleRequest : ReaderState := goToChapter staleDemo 2

/-- C9 counterexample: a stale completion for chapter 0 arriving while
chapter 2 is the requested target is not discarded — it overwrites the
session's chapter, content and line sequence. -/
theorem stale_completion_counterexample :
    staleRequest.chapter = 2 ∧
    (handleChapterLoaded staleRequest ⟨"stale".data, 0, false⟩).chapter = 0 ∧
    (handleChapterLoaded staleRequest ⟨"stale".data, 0, false⟩).content = "stale".data ∧
    (handleChapterLoaded staleRequest ⟨"stale".data, 0, false⟩).lines = ["stale".data] := by
  decide

/-- C9 amended: `handleChapterLoaded` matches no expected target — every
successful completion message installs its chapter and content
unconditionally, stale or not. -/
theorem stale_completion_amended (v : ReaderState) (msg : ChapterLoadedMsg)
    (herr : msg.err = false) :
    (handleChapterLoaded v msg).chapter = msg.chapter ∧
    (handleChapterLoaded v msg).content = msg.content :=
  handleChapterLoaded_installs v msg herr

/-- Witness for the amended C9: the stale chapter-0 completion lands. -/
theorem stale_completion_amended_witness :
    (handleChapterLoaded staleRequest ⟨"stale".data, 0, false⟩).chapter = 0 ∧
    (handleChapterLoaded staleRequest ⟨"stale".data, 0, false⟩).content = "stale".data :=
  stale_completion_amended staleRequest ⟨"stale".data, 0, false⟩ rfl

/-! ## Paged → Continuous → Paged roundtrip (C4) -/

/-- A paged session reading chapter 1 of a two-chapter book. -/
def roundtripDemo : ReaderState :=
  { newReaderView with
      bookId := some "b".data,
      chapters := ["One".data, "Two".data],
      chapter := 1,
      content := "x".data,
      lines := ["x".data] }

/-- After switching to continuous mode. -/
def roundtrip1 : ReaderState := toggleContinuousMode roundtripDemo

/-- After the eager all-chapter fetch completes and the content is stitched
(chapter 1 starts at line 4: three header lines plus one wrapped line of
chapter 0). -/
def roundtrip2 : ReaderState :=
  handleAllChaptersLoaded roundtrip1 ⟨[⟨0, "a".data⟩, ⟨1, "b".data⟩], false⟩

/-- After switching straight back to paged mode. -/
def roundtrip3 : ReaderState := toggleContinuousMode roundtrip2

/-- After the reload of the current chapter completes. -/
def roundtrip4 : ReaderState :=
  handleChapterLoaded roundtrip3 ⟨"b".data, roundtrip3.chapter, false⟩

/-- C4 counterexample: the roundtrip keeps chapter 1, but the line offset
ends at 4 — the chapter's boundary start inside the stitched content — and
is not reset to 0 as claimed. -/
theorem mode_roundtrip_counterexample :
    roundtrip4.chapter = 1 ∧ roundtrip4.lineOffset = 4 ∧ roundtrip4.lineOffset ≠ 0 := by
  decide

/-- C4 amended: switching Paged → Continuous → Paged with no navigation in
between (and no position restore pending) keeps the chapter index unchanged
and ends back in paged mode, but the line offset is the offset the stitched
view used — the current chapter's boundary start — not 0. -/
theorem mode_roundtrip_amended (v : ReaderState) (chs : List ChapterContent)
    (newContent : GoStr) (hmode : v.continuousMode = false)
    (hpend : v.hasPendingPos = false) :
    (handleChapterLoaded (toggleContinuousMode (handleAllChaptersLoaded
        (toggleContinuousMode v) ⟨chs, false⟩))
        ⟨newContent, (toggleContinuousMode (handleAllChaptersLoaded
          (toggleContinuousMode v) ⟨chs, false⟩)).chapter, false⟩).chapter = v.chapter ∧
    (handleChapterLoaded (toggleContinuousMode (handleAllChaptersLoaded
        (toggleContinuousMode v) ⟨chs, false⟩))
        ⟨newContent, (toggleContinuousMode (handleAllChaptersLoaded
          (toggleContinuousMode v) ⟨chs, false⟩)).chapter, false⟩).lineOffset =
      (handleAllChaptersLoaded (toggleContinuousMode v) ⟨chs, false⟩).lineOffset ∧
    (handleChapterLoaded (toggleContinuousMode (handleAllChaptersLoaded
        (toggleContinuousMode v) ⟨chs, false⟩))
        ⟨newContent, (toggleContinuousMode (handleAllChaptersLoaded
          (toggleContinuousMode v) ⟨chs, false⟩)).chapter, false⟩).continuousMode = false := by
  obtain ⟨t1chap, t1off, t1mode, t1pend⟩ := toggleContinuousMode_fields v
  obtain ⟨a2chap, a2mode, a2pend⟩ :=
    handleAllChaptersLoaded_fields (toggleContinuousMode v) chs
  obtain ⟨t3chap, t3off, t3mode, t3pend⟩ := toggleContinuousMode_fields
    (handleAllChaptersLoaded (toggleContinuousMode v) ⟨chs, false⟩)
  obtain ⟨h4chap, -⟩ := handleChapterLoaded_installs
    (toggleContinuousMode (handleAllChaptersLoaded (toggleContinuousMode v) ⟨chs, false⟩))
    ⟨newContent, (toggleContinuousMode (handleAllChaptersLoaded
      (toggleContinuousMode v) ⟨chs, false⟩)).chapter, false⟩ rfl
  obtain ⟨h4off, h4mode⟩ := handleChapterLoaded_offset
    (toggleContinuousMode (handleAllChaptersLoaded (toggleContinuousMode v) ⟨chs, false⟩))
    ⟨newContent, (toggleContinuousMode (handleAllChaptersLoaded
      (toggleContinuousMode v) ⟨chs, false⟩)).chapter, false⟩ rfl
    (by rw [t3pend, a2pend, t1pend, hpend])
  refine ⟨?_, ?_, ?_⟩
  · rw [h4chap, t3chap, a2chap, t1chap]
  · rw [h4off, t3off]
  · rw [h4mode, t3mode, a2mode, t1mode, hmode]
    simp

/-- Witness for the amended C4 at the concrete two-chapter session. -/
theorem mode_roundtrip_amended_witness :
    (handleChapterLoaded (toggleContinuousMode (handleAllChaptersLoaded
        (toggleContinuousMode roundtripDemo) ⟨[⟨0, "a".data⟩, ⟨1, "b".data⟩], false⟩))
        ⟨"b".data, (toggleContinuousMode (handleAllChaptersLoaded
          (toggleContinuousMode roundtripDemo)
          ⟨[⟨0, "a".data⟩, ⟨1, "b".data⟩], false⟩)).chapter, false⟩).chapter =
      roundtripDemo.chapter ∧
    (handleChapterLoaded (toggleContinuousMode (handleAllChaptersLoaded
        (toggleContinuousMode roundtripDemo) ⟨[⟨0, "a".data⟩, ⟨1, "b".data⟩], false⟩))
        ⟨"b".data, (toggleContinuousMode (handleAllChaptersLoaded
          (toggleContinuousMode roundtripDemo)
          ⟨[⟨0, "a".data⟩, ⟨1, "b".data⟩], false⟩)).chapter, false⟩).lineOffset =
      (handleAllChaptersLoaded (toggleContinuousMode roundtripDemo)
        ⟨[⟨0, "a".data⟩, ⟨1, "b".data⟩], false⟩).lineOffset ∧
    (handleChapterLoaded (toggleContinuousMode (handleAllChaptersLoaded
        (toggleContinuousMode roundtripDemo) ⟨[⟨0, "a".data⟩, ⟨1, "b".data⟩], false⟩))
        ⟨"b".data, (toggleContinuousMode (handleAllChaptersLoaded
          (toggleContinuousMode roundtripDemo)
          ⟨[⟨0, "a".data⟩, ⟨1, "b".data⟩], false⟩)).chapter, false⟩).continuousMode = false :=
  mode_roundtrip_amended roundtripDemo [⟨0, "a".data⟩, ⟨1, "b".data⟩] "b".data rfl rfl

/-! ## Exit position save (C8) -/

/-- A session with 10 wrapped lines that all fit in the 19-row viewport, at
offset 0 — the "last page fully visible without scrolling" situation. -/
def exitDemo : ReaderState :=
  { newReaderView with
      bookId := some "doc1".data,
      content := "x".data,
      lines := List.replicate 10 "x".data }

/-- C8 counterexample: the last page is fully visible (the progress codec
reports the full value 100), yet the single emitted save carries fraction
`0/10 = 0`, not the claimed `ToFraction` value 1.0. -/
theorem savePosition_counterexample :
    exitDemo.lineOffset + visibleLines exitDemo ≥ exitDemo.lines.length ∧
    calculateProgress exitDemo.lineOffset (visibleLines exitDemo) exitDemo.lines.length = 100 ∧
    savePositionOnExitCalls exitDemo = [⟨"doc1".data, "0".data, 0⟩] ∧
    (0 : ℚ) ≠ 1 := by
  refine ⟨by decide, by decide, ?_, by norm_num⟩
  rw [savePositionOnExitCalls, savePositionCalls]
  norm_num [exitDemo, newReaderView]
  decide

/-- C8 amended: on session end the save operation is invoked exactly once
whenever a book is open — even if the user never scrolled — with the
document id, the stored chapter index (the boundary chapter is not
recomputed in continuous mode), and the raw fraction
`lineOffset / max 1 lineCount`, which is not clamped to 1.0 on a fully
visible last page. -/
theorem savePosition_amended (v : ReaderState) (id : GoStr) (h : v.bookId = some id) :
    savePositionOnExitCalls v =
      [⟨id, (Nat.repr v.chapter).data,
        (v.lineOffset : ℚ) / ((max 1 v.lines.length : Nat) : ℚ)⟩] := by
  rw [savePositionOnExitCalls, savePositionCalls, h]

/-- Witness for the amended C8 at the concrete exit state. -/
theorem savePosition_amended_witness :
    savePositionOnExitCalls exitDemo =
      [⟨"doc1".data, (Nat.repr exitDemo.chapter).data,
        (exitDemo.lineOffset : ℚ) / ((max 1 exitDemo.lines.length : Nat) : ℚ)⟩] :=
  savePosition_amended exitDemo "doc1".data rfl

/-! ## Chapter stitcher lookup (C5) -/

/-- Every stitched chapter block has at least its three header lines. -/
theorem chapterBlock_length (titles : List GoStr) (mw : Nat) (ch : ChapterContent) :
    3 ≤ (chapterBlock titles mw ch).length := by
  rw [chapterBlock]
  simp

/-- Stitching three chapters produces the boundary table
`[(0,0), (1,|b₀|), (2,|b₀|+|b₁|)]` and `|b₀|+|b₁|+|b₂|` lines, without
touching the mode flag. -/
theorem buildContinuous3 (v : ReaderState) (A B C : GoStr) :
    (buildContinuousContent v [⟨0, A⟩, ⟨1, B⟩, ⟨2, C⟩]).chapterBoundaries =
      [⟨0, 0⟩,
       ⟨1, (chapterBlock v.chapters (effectiveWidth v.width v.textScale) ⟨0, A⟩).length⟩,
       ⟨2, (chapterBlock v.chapters (effectiveWidth v.width v.textScale) ⟨0, A⟩).length +
           (chapterBlock v.chapters (effectiveWidth v.width v.textScale) ⟨1, B⟩).length⟩] ∧
    (buildContinuousContent v [⟨0, A⟩, ⟨1, B⟩, ⟨2, C⟩]).lines.length =
      (chapterBlock v.chapters (effectiveWidth v.width v.textScale) ⟨0, A⟩).length +
      (chapterBlock v.chapters (effectiveWidth v.width v.textScale) ⟨1, B⟩).length +
      (chapterBlock v.chapters (effectiveWidth v.width v.textScale) ⟨2, C⟩).length ∧
    (buildContinuousContent v [⟨0, A⟩, ⟨1, B⟩, ⟨2, C⟩]).continuousMode = v.continuousMode := by
  rw [buildContinuousContent]
  simp only [stitchLoop, List.nil_append, List.cons_append, List.append_nil]
  split <;> simp [List.length_append] <;> omega

/-- On a three-boundary table `[(0,0),(1,n₁),(2,n₂)]` the descending scan of
`getCurrentChapterFromLine` is the two-threshold step function. -/
theorem lookup_three (w : ReaderState) (n1 n2 : Nat)
    (hc : w.continuousMode = true)
    (hb : w.chapterBoundaries = [⟨0, 0⟩, ⟨1, n1⟩, ⟨2, n2⟩]) (i : Nat) :
    getCurrentChapterFromLine w i = if n2 ≤ i then 2 else if n1 ≤ i then 1 else 0 := by
  rw [getCurrentChapterFromLine, if_neg (by simp [hc, hb]), hb]
  simp only [List.reverse_cons, List.reverse_nil, List.nil_append, List.cons_append,
    List.find?, ge_iff_le]
  by_cases h2 : n2 ≤ i
  · simp [h2]
  · by_cases h1 : n1 ≤ i
    · simp [h2, h1]
    · simp [h2, h1]

/-- C5: after stitching three chapters `[A, B, C]`, the line-to-chapter
lookup is non-decreasing in the line index, every line of the stitched
sequence maps into `{0, 1, 2}`, and every chapter index in `{0, 1, 2}` is
attained — in order of the thresholds. -/
theorem stitch_lookup_spec (v : ReaderState) (A B C : GoStr)
    (hcont : v.continuousMode = true) :
    (∀ i j : Nat, i ≤ j →
      getCurrentChapterFromLine (buildContinuousContent v [⟨0, A⟩, ⟨1, B⟩, ⟨2, C⟩]) i ≤
        getCurrentChapterFromLine (buildContinuousContent v [⟨0, A⟩, ⟨1, B⟩, ⟨2, C⟩]) j) ∧
    (∀ i : Nat, i < (buildContinuousContent v [⟨0, A⟩, ⟨1, B⟩, ⟨2, C⟩]).lines.length →
      getCurrentChapterFromLine (buildContinuousContent v [⟨0, A⟩, ⟨1, B⟩, ⟨2, C⟩]) i ∈
        ([0, 1, 2] : List Nat)) ∧
    (∀ c ∈ ([0, 1, 2] : List Nat), ∃ i : Nat,
      i < (buildContinuousContent v [⟨0, A⟩, ⟨1, B⟩, ⟨2, C⟩]).lines.length ∧
      getCurrentChapterFromLine (buildContinuousContent v [⟨0, A⟩, ⟨1, B⟩, ⟨2, C⟩]) i = c) := by
  obtain ⟨hbnd, hlen, hmode⟩ := buildContinuous3 v A B C
  have hl0 := chapterBlock_length v.chapters (effectiveWidth v.width v.textScale) ⟨0, A⟩
  have hl1 := chapterBlock_length v.chapters (effectiveWidth v.width v.textScale) ⟨1, B⟩
  have hl2 := chapterBlock_length v.chapters (effectiveWidth v.width v.textScale) ⟨2, C⟩
  have hlook := lookup_three (buildContinuousContent v [⟨0, A⟩, ⟨1, B⟩, ⟨2, C⟩]) _ _
    (by rw [hmode, hcont]) hbnd
  refine ⟨?_, ?_, ?_⟩
  · intro i j hij
    rw [hlook i, hlook j]
    split_ifs <;> omega
  · intro i _
    rw [hlook i]
    split_ifs <;> simp
  · intro c hcmem
    rcases List.mem_cons.mp hcmem with rfl | hcmem
    · exact ⟨0, by omega, by rw [hlook 0]; split_ifs <;> omega⟩
    rcases List.mem_cons.mp hcmem with rfl | hcmem
    · refine ⟨(chapterBlock v.chapters (effectiveWidth v.width v.textScale) ⟨0, A⟩).length,
        by omega, ?_⟩
      rw [hlook]
      split_ifs <;> omega
    rcases List.mem_cons.mp hcmem with rfl | hcmem
    · refine ⟨(chapterBlock v.chapters (effectiveWidth v.width v.textScale) ⟨0, A⟩).length +
        (chapterBlock v.chapters (effectiveWidth v.width v.textScale) ⟨1, B⟩).length,
        by omega, ?_⟩
      rw [hlook]
      split_ifs <;> omega
    · simp at hcmem

/-- A continuous-mode session for the stitching witness. -/
def stitchDemo : ReaderState := { newReaderView with continuousMode := true }

/-- Witness for C5 at a concrete continuous-mode session and chapters. -/
theorem stitch_lookup_spec_witness :
    (∀ i j : Nat, i ≤ j →
      getCurrentChapterFromLine
          (buildContinuousContent stitchDemo [⟨0, "a".data⟩, ⟨1, "b".data⟩, ⟨2, "c".data⟩]) i ≤
        getCurrentChapterFromLine
          (buildContinuousContent stitchDemo [⟨0, "a".data⟩, ⟨1, "b".data⟩, ⟨2, "c".data⟩]) j) ∧
    (∀ i : Nat,
      i < (buildContinuousContent stitchDemo
          [⟨0, "a".data⟩, ⟨1, "b".data⟩, ⟨2, "c".data⟩]).lines.length →
      getCurrentChapterFromLine
          (buildContinuousContent stitchDemo [⟨0, "a".data⟩, ⟨1, "b".data⟩, ⟨2, "c".data⟩]) i ∈
        ([0, 1, 2] : List Nat)) ∧
    (∀ c ∈ ([0, 1, 2] : List Nat), ∃ i : Nat,
      i < (buildContinuousContent stitchDemo
          [⟨0, "a".data⟩, ⟨1, "b".data⟩, ⟨2, "c".data⟩]).lines.length ∧
      getCurrentChapterFromLine
          (buildContinuousContent stitchDemo [⟨0, "a".data⟩, ⟨1, "b".data⟩, ⟨2, "c".data⟩]) i = c) :=
  stitch_lookup_spec stitchDemo "a".data "b".data "c".data rfl

/-! ## Search semantics (C7) -/

/-- Match order: by line index, then by start offset. -/
def matchLt (m1 m2 : SearchMatch) : Prop :=
  m1.lineIndex < m2.lineIndex ∨
    (m1.lineIndex = m2.lineIndex ∧ m1.startOffset < m2.startOffset)

/-- The per-line scan tags every match with its line, keeps offsets at or
after the scan position, and emits strictly increasing start offsets. -/
theorem scanLineAux_facts (query : GoStr) (lineIdx : Nat) :
    ∀ (fuel : Nat) (hay : GoStr) (offset : Nat),
      (∀ m ∈ scanLineAux query lineIdx fuel hay offset,
          m.lineIndex = lineIdx ∧ offset ≤ m.startOffset) ∧
      (scanLineAux query lineIdx fuel hay offset).Pairwise
        (fun m1 m2 => m1.startOffset < m2.startOffset) := by
  intro fuel
  induction fuel with
  | zero => intro hay offset; simp [scanLineAux]
  | succ n ih =>
    intro hay offset
    rw [scanLineAux]
    cases h : strIndex query hay with
    | none => simp
    | some idx =>
      dsimp only
      constructor
      · intro m hm
        rcases List.mem_cons.mp hm with rfl | hm
        · exact ⟨rfl, by simp⟩
        · obtain ⟨h1, h2⟩ := (ih _ _).1 m hm
          exact ⟨h1, by omega⟩
      · rw [List.pairwise_cons]
        refine ⟨?_, (ih _ _).2⟩
        intro m hm
        have := (ih _ _).1 m hm
        dsimp only
        omega

/-- Matches collected from lines enumerated from index `j` live on lines
at or after `j`. -/
theorem enumFrom_flatMap_lineIdx (query : GoStr) :
    ∀ (ls : List GoStr) (j : Nat) (m : SearchMatch),
      m ∈ (List.enumFrom j ls).flatMap (fun p => scanLine query p.1 (lowerStr p.2) 0) →
      j ≤ m.lineIndex := by
  intro ls
  induction ls with
  | nil => simp
  | cons s t ih =>
    intro j m hm
    simp only [List.enumFrom, List.flatMap_cons, List.mem_append] at hm
    rcases hm with hm | hm
    · have := (scanLineAux_facts query j _ _ _).1 m hm
      omega
    · have := ih (j + 1) m hm
      omega

/-- Scanning the enumerated lines in order yields matches sorted by
(line index, start offset). -/
theorem enumFrom_flatMap_sorted (query : GoStr) :
    ∀ (ls : List GoStr) (j : Nat),
      ((List.enumFrom j ls).flatMap
        (fun p => scanLine query p.1 (lowerStr p.2) 0)).Pairwise matchLt := by
  intro ls
  induction ls with
  | nil => simp
  | cons s t ih =>
    intro j
    simp only [List.enumFrom, List.flatMap_cons]
    rw [List.pairwise_append]
    refine ⟨?_, ih (j + 1), ?_⟩
    · have hfacts := scanLineAux_facts query j ((lowerStr s).length) (lowerStr s) 0
      refine List.Pairwise.imp_of_mem ?_ hfacts.2
      intro m1 m2 hm1 hm2 hlt
      right
      exact ⟨(hfacts.1 m1 hm1).1.trans (hfacts.1 m2 hm2).1.symm, hlt⟩
    · intro m1 hm1 m2 hm2
      left
      have h1 := (scanLineAux_facts query j _ _ _).1 m1 hm1
      have h2 := enumFrom_flatMap_lineIdx query t (j + 1) m2 hm2
      omega

/-- `scrollToMatch` moves only the viewport offset. -/
theorem scrollToMatch_search (v : ReaderState) (k : Int) :
    (scrollToMatch v k).searchMatches = v.searchMatches ∧
    (scrollToMatch v k).searchQuery = v.searchQuery ∧
    (scrollToMatch v k).currentMatch = v.currentMatch ∧
    (scrollToMatch v k).searchActive = v.searchActive := by
  rw [scrollToMatch]
  split
  · simp
  · simp [apply_ite ReaderState.searchMatches, apply_ite ReaderState.searchQuery,
      apply_ite ReaderState.currentMatch, apply_ite ReaderState.searchActive]

/-- The match list `executeSearch` stores: empty under the guard, otherwise
the per-line scans of the lowered lines against the lowered query, in line
order. -/
theorem executeSearch_matches (v : ReaderState) :
    (executeSearch v).searchMatches =
      if v.searchQuery = [] ∨ v.lines = [] then []
      else v.lines.enum.flatMap
        (fun p => scanLine (lowerStr v.searchQuery) p.1 (lowerStr p.2) 0) := by
  rw [executeSearch]
  split
  · simp
  · dsimp only
    split
    · rw [(scrollToMatch_search _ _).1]
    · rfl

/-- C7: `executeSearch` (i) returns its matches sorted by
(lineIndex, startOffset) ascending; (ii) is case-insensitive — replacing the
query and the lines by any strings with the same lowering leaves the match
list unchanged; and (iii) on the line `"aaa"` the query `"aa"` yields exactly
the two overlap-by-one matches at offsets (0,2) and (1,3). -/
theorem executeSearch_spec :
    (∀ v : ReaderState, (executeSearch v).searchMatches.Pairwise matchLt) ∧
    (∀ (v : ReaderState) (q : GoStr) (ls2 : List GoStr),
        lowerStr v.searchQuery = lowerStr q →
        v.lines.map (fun l => lowerStr l) = ls2.map (fun l => lowerStr l) →
        (executeSearch v).searchMatches =
          (executeSearch { v with searchQuery := q, lines := ls2 }).searchMatches) ∧
    ((executeSearch
        { newReaderView with lines := ["aaa".data], searchQuery := "aa".data }).searchMatches =
      [⟨0, 0, 2⟩, ⟨0, 1, 3⟩]) := by
  refine ⟨fun v => ?_, fun v q ls2 hq hls => ?_, by decide⟩
  · rw [executeSearch_matches]
    split
    · simp
    · rw [List.enum_eq_enumFrom]
      exact enumFrom_flatMap_sorted (lowerStr v.searchQuery) v.lines 0
  · have hqnil : v.searchQuery = [] ↔ q = [] := by
      constructor <;> intro h
      · rw [h] at hq
        simpa [lowerStr, List.map_eq_nil] using hq.symm
      · rw [h] at hq
        simpa [lowerStr, List.map_eq_nil] using hq
    have hlnil : v.lines = [] ↔ ls2 = [] := by
      constructor <;> intro h
      · rw [h] at hls
        simpa [List.map_eq_nil] using hls.symm
      · rw [h] at hls
        simpa [List.map_eq_nil] using hls
    have hflat : ∀ (lsa lsb : List GoStr) (j : Nat),
        lsa.map (fun l => lowerStr l) = lsb.map (fun l => lowerStr l) →
        (List.enumFrom j lsa).flatMap
            (fun p => scanLine (lowerStr q) p.1 (lowerStr p.2) 0) =
          (List.enumFrom j lsb).flatMap
            (fun p => scanLine (lowerStr q) p.1 (lowerStr p.2) 0) := by
      intro lsa
      induction lsa with
      | nil =>
        intro lsb j h
        have : lsb = [] := by simpa [List.map_eq_nil] using h.symm
        rw [this]
      | cons s t ih =>
        intro lsb j h
        cases lsb with
        | nil => simp at h
        | cons s2 t2 =>
          simp only [List.map_cons, List.cons.injEq] at h
          simp only [List.enumFrom, List.flatMap_cons]
          rw [h.1, ih t2 (j + 1) h.2]
    rw [executeSearch_matches, executeSearch_matches]
    dsimp only
    by_cases hg : v.searchQuery = [] ∨ v.lines = []
    · rw [if_pos hg, if_pos (by rw [← hqnil, ← hlnil]; exact hg)]
    · rw [if_neg hg, if_neg (by rw [← hqnil, ← hlnil]; exact hg)]
      rw [hq, List.enum_eq_enumFrom, List.enum_eq_enumFrom]
      exact hflat v.lines ls2 0 hls

/-- Witness for C7: the query `"AA"` and the line `"AaA"` lower to the same
strings as `"aa"` and `"aaa"`, so the match lists coincide. -/
theorem executeSearch_spec_witness :
    (executeSearch
        { newReaderView with lines := ["aaa".data], searchQuery := "aa".data }).searchMatches =
      (executeSearch
        { { newReaderView with lines := ["aaa".data], searchQuery := "aa".data } with
            searchQuery := "AA".data, lines := ["AaA".data] }).searchMatches :=
  executeSearch_spec.2.1
    { newReaderView with lines := ["aaa".data], searchQuery := "aa".data }
    "AA".data ["AaA".data] (by decide) (by decide)

end Webby
